import Mathlib

/-!
# Verification of `pylibcheck`

A shallow embedding of `src/pylibcheck.py` and proofs about it.

Module names are Lean `String`s; the character-level operations of the
Python code (`'.' in modname`, `elem.startswith('_')`, `s.lower()`,
`modname.partition('.')[0]`, string comparison used by `list.sort`) are
embedded as structural functions over `String.toList`, so that every
definition evaluates by kernel reduction.

The process-wide mutable state touched by the code is `sys.path`; it is
embedded as an explicit state record `PyState` threaded through `stdlib`.
The runtime's module-lookup probe `imp.find_module` is environment
dependent, so it is a parameter `find : String → List Char → ... → FindResult`
of the embedding; its three observable outcomes (module found, `ImportError`
raised, some other exception raised) are the constructors of `FindResult`.
-/

namespace PyLibCheck

/-- `'.' in modname` — membership of the dot character in the name. -/
def containsDot (s : String) : Bool := s.toList.contains '.'

/-- `elem.startswith('_')` — whether the first character is an underscore. -/
def startsUnderscore (s : String) : Bool :=
  match s.toList with
  | [] => false
  | c :: _ => c == '_'

/-- `s.lower()` — the sort key used by `compare`, as a list of characters
(ASCII lower-casing, which is what the module names here use). -/
def lowKey (s : String) : List Char := s.toList.map Char.toLower

/-- Case-insensitive comparison `s.lower() <= t.lower()` (lexicographic on
code points, as Python string comparison is). -/
def keyLE (a b : String) : Bool := decide (lowKey a ≤ lowKey b)

/-- Stable insertion of `x` into a list already sorted by `keyLE`:
`x` goes before the first element it does not strictly follow, so elements
with equal keys keep their original relative order (Python's `list.sort`
is stable). -/
def insertLower (x : String) : List String → List String
  | [] => [x]
  | y :: ys => if keyLE x y then x :: y :: ys else y :: insertLower x ys

/-- `lst.sort(key=lambda s: s.lower())` — a stable sort by the lower-cased
name, embedded as stable insertion sort (observably equal to Python's
stable sort). -/
def sortLower : List String → List String
  | [] => []
  | x :: xs => insertLower x (sortLower xs)

/-- `compare(initial, later, ignore)` (lines 69–88): keep the elements of
`later` that are in neither `initial` nor `ignore` (set membership only, so
the embedding keeps them as lists and tests `contains`), split them into
the underscore-prefixed and the rest — a single pass appending to two
lists, i.e. two filters — sort each group case-insensitively, and return
the unprefixed group followed by the prefixed group. -/
def compare (initial later : List String) (ignore : List String := []) :
    List String :=
  let added := later.filter fun e => !(initial.contains e || ignore.contains e)
  let prefixed := added.filter fun e => startsUnderscore e
  let unprefixed := added.filter fun e => !(startsUnderscore e)
  sortLower unprefixed ++ sortLower prefixed

/-- The observable outcomes of the lookup probe `imp.find_module`:
the module is found, an `ImportError` is raised, or some other exception
escapes the probe. -/
inductive FindResult where
  | found
  | importError
  | raised
deriving DecidableEq

/-- Exceptions that can escape `stdlib`: the `ValueError` it raises itself
for a dotted name (carrying the offending name), or an exception
propagated from the lookup probe. -/
inductive PyErr where
  | valueError (modname : String)
  | propagated
deriving DecidableEq

/-- The process-wide interpreter state the code mutates: `sys.path`. -/
structure PyState where
  path : List String
deriving DecidableEq

/-- `stdlib(modname, sys_path)` (lines 41–66).  Raises `ValueError` for a
dotted name before touching any state; otherwise saves `sys.path`,
installs the override `sys_path`, runs the lookup probe against the
installed path, and restores the saved path on every exit (the `finally`
block): `found` ↦ `True`, `ImportError` ↦ `False`, any other exception is
propagated.  The probe `find` is a parameter of the embedding. -/
def stdlib (find : String → List String → FindResult) (modname : String)
    (sys_path : List String) (st : PyState) : Except PyErr Bool × PyState :=
  if containsDot modname then
    (Except.error (PyErr.valueError modname), st)
  else
    let sys_path_orig := st.path
    let st' : PyState := ⟨sys_path⟩
    match find modname st'.path with
    | FindResult.found => (Except.ok true, ⟨sys_path_orig⟩)
    | FindResult.importError => (Except.ok false, ⟨sys_path_orig⟩)
    | FindResult.raised => (Except.error PyErr.propagated, ⟨sys_path_orig⟩)

/-- `modname.partition('.')[0]` (line 127) — the substring before the
first dot (the whole name when there is no dot). -/
def basemod (s : String) : String :=
  String.mk (s.toList.takeWhile fun c => !(c == '.'))

/-- The classification loop of `run` (lines 116–132), instrumented with the
list of arguments passed to `stdlib`.  For each diff element take its
top-level name, skip it if already seen, otherwise call `stdlib` (threading
the interpreter state through the call) and record the name when the answer
is `False`; an exception escaping `stdlib` aborts the loop and propagates.
Returns (the `non_stdlib` list or the escaped exception, the final
interpreter state, the ordered list of `stdlib` call arguments). -/
def classifyAll (find : String → List String → FindResult)
    (sys_path : List String) :
    List String → List String → PyState →
      Except PyErr (List String) × PyState × List String
  | [], _, st => (Except.ok [], st, [])
  | m :: rest, seen, st =>
    let b := basemod m
    if b ∈ seen then classifyAll find sys_path rest seen st
    else
      match stdlib find b sys_path st with
      | (Except.ok true, st') =>
        let out := classifyAll find sys_path rest (b :: seen) st'
        (out.1, out.2.1, b :: out.2.2)
      | (Except.ok false, st') =>
        let out := classifyAll find sys_path rest (b :: seen) st'
        (out.1.map fun l => b :: l, out.2.1, b :: out.2.2)
      | (Except.error e, st') => (Except.error e, st', [b])

/-- First-occurrence deduplication relative to an already-seen list: the
order in which the loop of `run` first encounters each distinct top-level
name not in `seen`. -/
def firstDedup : List String → List String → List String
  | [], _ => []
  | x :: xs, seen =>
    if x ∈ seen then firstDedup xs seen else x :: firstDedup xs (x :: seen)

/-! ## Helper lemmas about the case-insensitive sort -/

lemma keyLE_total {a b : String} (h : keyLE a b = false) : keyLE b a = true := by
  simp only [keyLE, decide_eq_false_iff_not, decide_eq_true_eq] at *
  exact le_of_not_le h

lemma keyLE_trans {a b c : String} (hab : keyLE a b = true)
    (hbc : keyLE b c = true) : keyLE a c = true := by
  simp only [keyLE, decide_eq_true_eq] at *
  exact le_trans hab hbc

lemma insertLower_perm (x : String) (l : List String) :
    (insertLower x l).Perm (x :: l) := by
  induction l with
  | nil => exact List.Perm.refl _
  | cons y ys ih =>
    by_cases h : keyLE x y = true
    · simp [insertLower, h]
    · simp only [insertLower, h, if_neg, Bool.not_eq_true, ite_false]
      exact ((ih.cons y).trans (List.Perm.swap x y ys))

lemma sortLower_perm (l : List String) : (sortLower l).Perm l := by
  induction l with
  | nil => exact List.Perm.refl _
  | cons x xs ih => exact (insertLower_perm x (sortLower xs)).trans (ih.cons x)

lemma mem_insertLower {a x : String} {l : List String} :
    a ∈ insertLower x l ↔ a = x ∨ a ∈ l := by
  rw [(insertLower_perm x l).mem_iff]
  simp

lemma insertLower_sorted (x : String) {l : List String}
    (h : l.Pairwise fun a b => keyLE a b = true) :
    (insertLower x l).Pairwise fun a b => keyLE a b = true := by
  induction l with
  | nil => simp [insertLower]
  | cons y ys ih =>
    rcases List.pairwise_cons.mp h with ⟨hy, hys⟩
    by_cases hxy : keyLE x y = true
    · simp only [insertLower, hxy, ite_true]
      refine List.pairwise_cons.mpr ⟨?_, h⟩
      intro z hz
      rcases List.mem_cons.mp hz with rfl | hz
      · exact hxy
      · exact keyLE_trans hxy (hy z hz)
    · simp only [insertLower, hxy, ite_false]
      refine List.pairwise_cons.mpr ⟨?_, ih hys⟩
      intro z hz
      rcases mem_insertLower.mp hz with rfl | hz
      · exact keyLE_total (Bool.eq_false_iff.mpr hxy)
      · exact hy z hz

lemma sortLower_sorted (l : List String) :
    (sortLower l).Pairwise fun a b => keyLE a b = true := by
  induction l with
  | nil => simp [sortLower]
  | cons x xs ih => exact insertLower_sorted x ih

lemma mem_sortLower {a : String} {l : List String} :
    a ∈ sortLower l ↔ a ∈ l := (sortLower_perm l).mem_iff

/-! ## Helper lemmas about `compare` -/

lemma compare_perm_filter (initial later ignore : List String) :
    (compare initial later ignore).Perm
      (later.filter fun e => !(initial.contains e || ignore.contains e)) := by
  unfold compare
  refine ((sortLower_perm _).append (sortLower_perm _)).trans ?_
  have h := List.filter_append_perm (fun e => !(startsUnderscore e))
    (later.filter fun e => !(initial.contains e || ignore.contains e))
  simpa [Bool.not_not] using h

lemma compare_decomp (initial later ignore : List String) :
    ∃ u p, compare initial later ignore = u ++ p ∧
      (∀ x ∈ u, startsUnderscore x = false) ∧
      (∀ x ∈ p, startsUnderscore x = true) ∧
      (u.Pairwise fun a b => keyLE a b = true) ∧
      (p.Pairwise fun a b => keyLE a b = true) := by
  refine ⟨sortLower ((later.filter fun e =>
      !(initial.contains e || ignore.contains e)).filter
        fun e => !(startsUnderscore e)),
    sortLower ((later.filter fun e =>
      !(initial.contains e || ignore.contains e)).filter
        fun e => startsUnderscore e), rfl, ?_, ?_,
    sortLower_sorted _, sortLower_sorted _⟩
  · intro x hx
    have := (List.mem_filter.mp (mem_sortLower.mp hx)).2
    simpa using this
  · intro x hx
    exact (List.mem_filter.mp (mem_sortLower.mp hx)).2

/-! ## Helper lemmas about `basemod`, `firstDedup` and the run loop -/

lemma basemod_noDot (s : String) : containsDot (basemod s) = false := by
  rw [Bool.eq_false_iff]
  intro h
  have h' : ('.' : Char) ∈ s.toList.takeWhile (fun c => !(c == '.')) :=
    List.mem_of_elem_eq_true h
  have := List.mem_takeWhile_imp h'
  simp at this

lemma mem_firstDedup :
    ∀ (l seen : List String) (b : String),
      b ∈ firstDedup l seen ↔ b ∈ l ∧ b ∉ seen := by
  intro l
  induction l with
  | nil => simp [firstDedup]
  | cons x xs ih =>
    intro seen b
    by_cases hx : x ∈ seen
    · rw [show firstDedup (x :: xs) seen = firstDedup xs seen by
        simp [firstDedup, hx], ih]
      constructor
      · rintro ⟨hb, hns⟩
        exact ⟨List.mem_cons_of_mem x hb, hns⟩
      · rintro ⟨hb, hns⟩
        rcases List.mem_cons.mp hb with rfl | hb
        · exact absurd hx hns
        · exact ⟨hb, hns⟩
    · rw [show firstDedup (x :: xs) seen = x :: firstDedup xs (x :: seen) by
        simp [firstDedup, hx]]
      simp only [List.mem_cons, ih]
      constructor
      · rintro (rfl | ⟨hb, hns⟩)
        · exact ⟨Or.inl rfl, hx⟩
        · refine ⟨Or.inr hb, fun h => hns (Or.inr h)⟩
      · rintro ⟨rfl | hb, hns⟩
        · exact Or.inl rfl
        · by_cases hbx : b = x
          · exact Or.inl hbx
          · refine Or.inr ⟨hb, fun h => ?_⟩
            rcases h with h1 | h1
            · exact hbx h1
            · exact hns h1

lemma nodup_firstDedup : ∀ (l seen : List String), (firstDedup l seen).Nodup := by
  intro l
  induction l with
  | nil => simp [firstDedup]
  | cons x xs ih =>
    intro seen
    by_cases hx : x ∈ seen
    · simpa [firstDedup, hx] using ih seen
    · simp only [firstDedup, hx, ite_false, List.nodup_cons]
      refine ⟨fun hmem => ?_, ih (x :: seen)⟩
      exact ((mem_firstDedup xs (x :: seen) x).mp hmem).2 (List.mem_cons_self x seen)

lemma classifyAll_eq (find : String → List String → FindResult)
    (sys_path : List String)
    (hfind : ∀ b p, find b p ≠ FindResult.raised) :
    ∀ (newmods seen : List String) (st : PyState),
      classifyAll find sys_path newmods seen st =
        (Except.ok ((firstDedup (newmods.map basemod) seen).filter
            fun b => !(find b sys_path == FindResult.found)),
          st, firstDedup (newmods.map basemod) seen) := by
  intro newmods
  induction newmods with
  | nil => intro seen st; rfl
  | cons m rest ih =>
    intro seen st
    by_cases hmem : basemod m ∈ seen
    · simp [classifyAll, firstDedup, hmem, ih]
    · have hdot := basemod_noDot m
      rcases hc : find (basemod m) sys_path with _ | _ | _
      · simp [classifyAll, firstDedup, hmem, stdlib, hdot, hc, ih]
      · simp [classifyAll, firstDedup, hmem, stdlib, hdot, hc, ih, Except.map]
      · exact absurd hc (hfind _ _)

lemma classifyAll_calls_noDot (find : String → List String → FindResult)
    (sys_path : List String) :
    ∀ (newmods seen : List String) (st : PyState),
      (((classifyAll find sys_path newmods seen st).2.2).all
        fun b => !(containsDot b)) = true := by
  intro newmods
  induction newmods with
  | nil => intro seen st; rfl
  | cons m rest ih =>
    intro seen st
    by_cases hmem : basemod m ∈ seen
    · simpa [classifyAll, hmem] using ih seen st
    · have hdot := basemod_noDot m
      rcases hc : find (basemod m) sys_path with _ | _ | _
      · simpa [classifyAll, hmem, stdlib, hdot, hc] using ih (basemod m :: seen) ⟨st.path⟩
      · simpa [classifyAll, hmem, stdlib, hdot, hc] using ih (basemod m :: seen) ⟨st.path⟩
      · simp [classifyAll, hmem, stdlib, hdot, hc]

/-- A concrete lookup probe (every name yields `ImportError`), used to
instantiate universally quantified statements at a concrete environment. -/
def findNone : String → List String → FindResult :=
  fun _ _ => FindResult.importError

/-! ## Claim theorems -/

/-- C1: `compare(initial, later, ignore)` returns exactly the elements of
`later` that are in neither `initial` nor `ignore` (as a permutation, so
duplicates are preserved and nothing from `ignore` appears), partitioned
with non-underscore names first and underscore names last, each group
sorted case-insensitively. -/
theorem compare_spec (initial later ignore : List String) :
    (compare initial later ignore).Perm
        (later.filter fun e => !(initial.contains e || ignore.contains e)) ∧
      ((compare initial later ignore).all fun e => !(ignore.contains e)) = true ∧
      ∃ u p, compare initial later ignore = u ++ p ∧
        (∀ x ∈ u, startsUnderscore x = false) ∧
        (∀ x ∈ p, startsUnderscore x = true) ∧
        (u.Pairwise fun a b => keyLE a b = true) ∧
        (p.Pairwise fun a b => keyLE a b = true) := by
  refine ⟨compare_perm_filter initial later ignore, ?_,
    compare_decomp initial later ignore⟩
  rw [List.all_eq_true]
  intro e he
  have hmem := (compare_perm_filter initial later ignore).mem_iff.mp he
  have hkeep := (List.mem_filter.mp hmem).2
  simp only [Bool.not_eq_true', Bool.or_eq_false_iff] at hkeep
  show (!(ignore.contains e)) = true
  rw [Bool.not_eq_true']
  exact hkeep.2

/-- C2: `stdlib` raises `ValueError` exactly when the module name contains
a dot. -/
theorem stdlib_valueError_iff (find : String → List String → FindResult)
    (n : String) (sys_path : List String) (st : PyState) :
    (∃ msg, (stdlib find n sys_path st).1 =
        Except.error (PyErr.valueError msg)) ↔ containsDot n = true := by
  by_cases hd : containsDot n = true
  · simp [stdlib, hd]
  · have hd' : containsDot n = false := Bool.eq_false_iff.mpr hd
    rw [hd']
    constructor
    · rintro ⟨msg, hmsg⟩
      rcases hc : find n sys_path with _ | _ | _ <;>
        simp [stdlib, hd', hc] at hmsg
    · intro h
      exact absurd h (by decide)

/-- C3: for a non-dotted name, `stdlib` leaves `sys.path` equal to what it
was before the call, on every exit path (found, not found, or an exception
escaping the lookup — all the possible outcomes of the probe `find`). -/
theorem stdlib_restores_path (find : String → List String → FindResult)
    (n : String) (sys_path : List String) (st : PyState)
    (h : containsDot n = false) :
    ((stdlib find n sys_path st).2).path = st.path := by
  rcases hc : find n sys_path with _ | _ | _ <;> simp [stdlib, h, hc]

theorem stdlib_restores_path_witness :
    containsDot "os" = false ∧
      ((stdlib findNone "os" ["lib"] ⟨["a", "b"]⟩).2).path =
        (⟨["a", "b"]⟩ : PyState).path :=
  ⟨by decide, stdlib_restores_path findNone "os" ["lib"] ⟨["a", "b"]⟩ (by decide)⟩

/-- C4: on a lookup environment in which the probe never raises, the
classification loop of `run` calls `stdlib` exactly once per distinct
top-level identity (`basemod`), in first-encounter order (the call list is
`firstDedup` of the reduced names: duplicate-free and containing exactly
the occurring identities), and reports exactly the non-standard ones in
that order, leaving the interpreter state unchanged. -/
theorem run_classification (find : String → List String → FindResult)
    (sys_path : List String) (newmods : List String) (st : PyState)
    (hfind : ∀ b p, find b p ≠ FindResult.raised) :
    classifyAll find sys_path newmods [] st =
        (Except.ok ((firstDedup (newmods.map basemod) []).filter
            fun b => !(find b sys_path == FindResult.found)),
          st, firstDedup (newmods.map basemod) []) ∧
      (firstDedup (newmods.map basemod) []).Nodup ∧
      ∀ b, b ∈ firstDedup (newmods.map basemod) [] ↔ b ∈ newmods.map basemod :=
  ⟨classifyAll_eq find sys_path hfind newmods [] st,
    nodup_firstDedup _ _,
    fun b => by simpa using mem_firstDedup (newmods.map basemod) [] b⟩

theorem run_classification_witness :
    (∀ (b : String) (p : List String), findNone b p ≠ FindResult.raised) ∧
      classifyAll findNone ["lib"] ["requests", "requests.models", "_thread"]
          [] ⟨["site"]⟩ =
        (Except.ok ((firstDedup
            (["requests", "requests.models", "_thread"].map basemod) []).filter
              fun b => !(findNone b ["lib"] == FindResult.found)),
          ⟨["site"]⟩,
          firstDedup (["requests", "requests.models", "_thread"].map basemod) []) :=
  ⟨fun _ _ h => FindResult.noConfusion h,
    (run_classification findNone ["lib"] ["requests", "requests.models", "_thread"]
      ⟨["site"]⟩ (fun _ _ h => FindResult.noConfusion h)).1⟩

/-- C5: the end-to-end scenario of the spec: with
`initial = ["os", "sys"]`,
`later = ["os", "sys", "requests", "requests.models", "_thread", "__mp_main__"]`
and `ignore = {"__mp_main__"}`, `compare` returns exactly
`["requests", "requests.models", "_thread"]`. -/
theorem compare_example :
    compare ["os", "sys"]
        ["os", "sys", "requests", "requests.models", "_thread", "__mp_main__"]
        ["__mp_main__"] = ["requests", "requests.models", "_thread"] := by
  decide

/-- C6: in every result of `compare`, once an underscore-prefixed name
appears every later name is underscore-prefixed (so every non-underscore
element precedes every underscore element), and any two elements in the
same partition (same underscore flag) appear in case-insensitive
lexicographic order. -/
theorem compare_ordering (initial later ignore : List String) :
    ((compare initial later ignore).Pairwise fun a b =>
        startsUnderscore a = true → startsUnderscore b = true) ∧
      (compare initial later ignore).Pairwise fun a b =>
        startsUnderscore a = startsUnderscore b → keyLE a b = true := by
  obtain ⟨u, p, heq, hu, hp, hsu, hsp⟩ := compare_decomp initial later ignore
  rw [heq]
  constructor
  · rw [List.pairwise_append]
    refine ⟨?_, ?_, ?_⟩
    · refine List.pairwise_of_forall_mem_list fun a ha b _ hflag => ?_
      rw [hu a ha] at hflag
      exact absurd hflag (by decide)
    · exact List.pairwise_of_forall_mem_list fun a _ b hb _ => hp b hb
    · exact fun a _ b hb _ => hp b hb
  · rw [List.pairwise_append]
    refine ⟨List.Pairwise.imp ?_ hsu, List.Pairwise.imp ?_ hsp, ?_⟩
    · exact fun h _ => h
    · exact fun h _ => h
    intro a ha b hb hflag
    rw [hu a ha, hp b hb] at hflag
    exact absurd hflag (by decide)

/-- C7: `compare(s, s, ignore)` is empty for every sequence `s` and every
ignore set; in particular empty inputs yield an empty result. -/
theorem compare_self_empty (s ignore : List String) :
    compare s s ignore = [] ∧ compare [] [] ignore = [] := by
  refine ⟨?_, rfl⟩
  have hnil : (s.filter fun e => !(s.contains e || ignore.contains e)) = [] := by
    rw [List.filter_eq_nil_iff]
    intro a ha
    have hc : s.contains a = true := List.elem_eq_true_of_mem ha
    simp only [hc, Bool.true_or, Bool.not_true]
    decide
  have hshape : compare s s ignore =
      sortLower ((s.filter fun e => !(s.contains e || ignore.contains e)).filter
        fun e => !(startsUnderscore e)) ++
      sortLower ((s.filter fun e => !(s.contains e || ignore.contains e)).filter
        fun e => startsUnderscore e) := rfl
  rw [hshape, hnil]
  rfl

/-- C8: for a non-dotted name, two successive `stdlib` calls against the
same lookup environment return the same answer, and afterwards `sys.path`
equals what it was before the first call. -/
theorem stdlib_idempotent (find : String → List String → FindResult)
    (n : String) (sys_path : List String) (st : PyState)
    (h : containsDot n = false) :
    (stdlib find n sys_path ((stdlib find n sys_path st).2)).1 =
        (stdlib find n sys_path st).1 ∧
      ((stdlib find n sys_path ((stdlib find n sys_path st).2)).2).path =
        st.path := by
  rcases hc : find n sys_path with _ | _ | _ <;> simp [stdlib, h, hc]

theorem stdlib_idempotent_witness :
    containsDot "sys" = false ∧
      ((stdlib findNone "sys" ["lib"] ((stdlib findNone "sys" ["lib"] ⟨["p"]⟩).2)).1 =
          (stdlib findNone "sys" ["lib"] ⟨["p"]⟩).1 ∧
        ((stdlib findNone "sys" ["lib"] ((stdlib findNone "sys" ["lib"] ⟨["p"]⟩).2)).2).path =
          (⟨["p"]⟩ : PyState).path) :=
  ⟨by decide, stdlib_idempotent findNone "sys" ["lib"] ⟨["p"]⟩ (by decide)⟩

/-- C9: every argument the run loop passes to `stdlib` is dot-free (it is
`basemod` of a diff element), and `stdlib` applied to any `basemod`-reduced
name never takes the `ValueError` branch — its outcome is one of the three
lookup outcomes. -/
theorem run_no_valueError (find : String → List String → FindResult)
    (sys_path : List String) (newmods seen : List String) (st : PyState) :
    ((((classifyAll find sys_path newmods seen st).2.2).all
        fun b => !(containsDot b)) = true) ∧
      ∀ (m : String) (st' : PyState),
        (stdlib find (basemod m) sys_path st').1 = Except.ok true ∨
        (stdlib find (basemod m) sys_path st').1 = Except.ok false ∨
        (stdlib find (basemod m) sys_path st').1 =
          Except.error PyErr.propagated := by
  refine ⟨classifyAll_calls_noDot find sys_path newmods seen st, ?_⟩
  intro m st'
  have hdot := basemod_noDot m
  rcases hc : find (basemod m) sys_path with _ | _ | _ <;> simp [stdlib, hdot, hc]

/-- C10: when `stdlib` is given a dotted name, the call fails with
`ValueError` and returns the interpreter state it was given: the dot check
precedes the save/override of `sys.path`, so the error path does not touch
it. -/
theorem stdlib_dotted_state_unchanged (find : String → List String → FindResult)
    (n : String) (sys_path : List String) (st : PyState)
    (h : containsDot n = true) :
    stdlib find n sys_path st = (Except.error (PyErr.valueError n), st) := by
  simp [stdlib, h]

theorem stdlib_dotted_state_unchanged_witness :
    containsDot "requests.models" = true ∧
      stdlib findNone "requests.models" ["lib"] ⟨["p"]⟩ =
        (Except.error (PyErr.valueError "requests.models"), ⟨["p"]⟩) :=
  ⟨by decide, stdlib_dotted_state_unchanged findNone "requests.models" ["lib"]
    ⟨["p"]⟩ (by decide)⟩

end PyLibCheck
